import Mathlib

/-!
Verification of the filejet SDK's URL-mutation builder, base64url helpers,
image-widget state machine, dimension resolution, thumbhash scheduling and
LRU cache, shallowly embedded from the TypeScript sources.
-/

/-! ## JavaScript primitives used by the sources -/

/-- `Math.round` on a rational: `⌊x + 1/2⌋` (JS rounds half towards +∞). -/
def jsRound (q : ℚ) : ℤ := ⌊q + 1/2⌋

/-- `String.prototype.trim`: drop leading and trailing whitespace. -/
def jsTrim (s : String) : String :=
  String.mk (List.rdropWhile Char.isWhitespace (List.dropWhile Char.isWhitespace s.data))

/-- `Array.prototype.join(',')`. -/
def joinComma : List String → String
  | [] => ""
  | [m] => m
  | m :: rest => m ++ "," ++ joinComma rest

/-! ## helpers.ts: base64 encode/decode

`base64UrlEncode` is `btoa` followed by replacing plus with dash, slash
with underscore, and dropping the `=` padding; `base64UrlDecode` maps dash
back to plus and underscore back to slash, then runs `atob` (forgiving base64).
-/

/-- Character of the standard base64 alphabet for a sextet. -/
def b64Char (n : Nat) : Char :=
  if n < 26 then Char.ofNat (65 + n)
  else if n < 52 then Char.ofNat (71 + n)
  else if n < 62 then Char.ofNat (n - 4)
  else if n = 62 then '+' else '/'

/-- Sextet of a standard-alphabet base64 character, `none` outside the alphabet. -/
def b64Index (c : Char) : Option Nat :=
  if 65 ≤ c.toNat ∧ c.toNat ≤ 90 then some (c.toNat - 65)
  else if 97 ≤ c.toNat ∧ c.toNat ≤ 122 then some (c.toNat - 71)
  else if 48 ≤ c.toNat ∧ c.toNat ≤ 57 then some (c.toNat + 4)
  else if c = '+' then some 62
  else if c = '/' then some 63
  else none

/-- The replace step of `base64UrlEncode`: plus becomes dash, slash becomes underscore. -/
def toUrlSafe (c : Char) : Char :=
  if c = '+' then '-' else if c = '/' then '_' else c

/-- The replace step of `base64UrlDecode`: dash becomes plus, underscore becomes slash. -/
def fromUrlSafe (c : Char) : Char :=
  if c = '-' then '+' else if c = '_' then '/' else c

/-- `btoa` on a byte list: three bytes become four sextet characters, a
final group of one or two bytes is padded with `=`. -/
def btoaCore : List Nat → List Char
  | [] => []
  | [b1] => [b64Char (b1 / 4), b64Char (b1 % 4 * 16), '=', '=']
  | [b1, b2] => [b64Char (b1 / 4), b64Char (b1 % 4 * 16 + b2 / 16), b64Char (b2 % 16 * 4), '=']
  | b1 :: b2 :: b3 :: rest =>
      b64Char (b1 / 4) :: b64Char (b1 % 4 * 16 + b2 / 16) ::
      b64Char (b2 % 16 * 4 + b3 / 64) :: b64Char (b3 % 64) :: btoaCore rest

/-- `btoa(value)`: encodes the code points of `value` as bytes; throws
(modelled as `none`) when some code point exceeds 255. -/
def btoa (s : String) : Option String :=
  if s.data.all (fun c => c.toNat < 256) then
    some (String.mk (btoaCore (s.data.map Char.toNat)))
  else none

/-- `base64UrlEncode` from helpers.ts: `btoa`, then url-safe replacement,
then removal of every `=`. -/
def base64UrlEncode (s : String) : Option String :=
  (btoa s).map (fun t => String.mk ((t.data.map toUrlSafe).filter (fun c => c ≠ '=')))

/-- Forgiving base64: groups of four sextets yield three bytes; a final
group of two or three sextets yields one or two bytes; a trailing group
of a single sextet is an error. -/
def atobCore : List Nat → Option (List Nat)
  | [] => some []
  | [_] => none
  | [s1, s2] => some [s1 * 4 + s2 / 16]
  | [s1, s2, s3] => some [s1 * 4 + s2 / 16, s2 % 16 * 16 + s3 / 4]
  | s1 :: s2 :: s3 :: s4 :: rest =>
      (atobCore rest).map (fun bs =>
        (s1 * 4 + s2 / 16) :: (s2 % 16 * 16 + s3 / 4) :: (s3 % 4 * 64 + s4) :: bs)

/-- Strip trailing `=` padding (forgiving-base64 preprocessing). -/
def stripEq (l : List Char) : List Char := List.rdropWhile (fun c => c = '=') l

/-- Map every character to its sextet; `none` on a character outside the
base64 alphabet. -/
def mapIndex : List Char → Option (List Nat)
  | [] => some []
  | c :: cs =>
      match b64Index c, mapIndex cs with
      | some s, some ss => some (s :: ss)
      | _, _ => none

/-- `atob` on a character list: strip trailing padding, reject other `=`,
map characters to sextets, decode. -/
def atobChars (l : List Char) : Option (List Nat) :=
  let t := stripEq l
  if t.any (fun c => c = '=') then none
  else (mapIndex t).bind atobCore

/-- `atob(value)`: decodes forgiving base64 back to a byte string. -/
def atob (s : String) : Option String :=
  (atobChars s.data).map (fun bs => String.mk (bs.map Char.ofNat))

/-- `base64UrlDecode` from helpers.ts: undo the url-safe replacement, then `atob`. -/
def base64UrlDecode (s : String) : Option String :=
  atob (String.mk (s.data.map fromUrlSafe))

/-! ## filejetImg.ts -/

/-- `ImgObjectFit` from filejetImg.ts. -/
inductive ImgObjectFit
  | contain
  | cover
deriving DecidableEq, Repr

/-- `FilejetImgProps` from filejetImg.ts (numbers embedded as rationals). -/
structure FilejetImgProps where
  src : String
  width : Option ℚ
  height : Option ℚ
  dpiScale : List ℚ
  fit : ImgObjectFit
  backgroundColor : String
  mutation : Option String
  filejetDomain : String

/-- `resize` from filejetImg.ts. Returns `none` when neither dimension is
set; the `throw new Error` branches are modelled as `Except.error`. -/
def resize (width height : Option ℚ) (scale : ℚ) (fit : ImgObjectFit)
    (backgroundColor : String) : Except String (Option String) :=
  if width = none ∧ height = none then .ok none
  else
    match fit with
    | .cover =>
      match width, height with
      | some w, some h =>
          .ok (some (joinComma
            ["resize_" ++ toString (jsRound (w * scale)) ++ "x" ++
               toString (jsRound (h * scale)) ++ "min",
             "fit_" ++ toString (jsRound (w * scale)) ++ "x" ++
               toString (jsRound (h * scale)),
             "bg_" ++ backgroundColor]))
      | some w, none => .ok (some ("resize_" ++ toString (jsRound (w * scale)) ++ "min"))
      | none, some h => .ok (some ("resize_x" ++ toString (jsRound (h * scale)) ++ "min"))
      | none, none => .error "Invalid width or height!"
    | .contain =>
      match width, height with
      | some w, some h =>
          .ok (some ("resize_" ++ toString (jsRound (w * scale)) ++ "x" ++
            toString (jsRound (h * scale)) ++ "shrink"))
      | some w, none => .ok (some ("resize_" ++ toString (jsRound (w * scale)) ++ "shrink"))
      | none, some h => .ok (some ("resize_x" ++ toString (jsRound (h * scale)) ++ "shrink"))
      | none, none => .error "Invalid width or height!"

/-- `combineMutations` from filejetImg.ts: drop the nil parts, trim each
remaining part, join with commas. -/
def combineMutations (mutations : List (Option String)) : Option String :=
  if mutations.length = 0 then none
  else some (joinComma ((mutations.filterMap id).map jsTrim))

/-- The mutation string computed at the top of `imgSrc`:
`combineMutations(resize(...), props.mutation, 'auto')`. -/
def mutationFor (props : FilejetImgProps) (scale : ℚ) : Except String String :=
  match resize props.width props.height scale props.fit props.backgroundColor with
  | .error e => .error e
  | .ok rm => .ok ((combineMutations [rm, props.mutation, some "auto"]).getD "undefined")

/-- The prefixes that mark `props.src` as an external URL. -/
def externalPrefixes : List String := ["https://", "./", "../", "/", "//"]

/-- `String.prototype.startsWith`, on the character lists. -/
def jsStartsWith (s p : String) : Bool := p.data.isPrefixOf s.data

/-- `imgSrc` from filejetImg.ts. `resolve` abstracts the browser's
`new URL(props.src, document.baseURI).href` resolution; a `btoa` failure
on the resolved URL is modelled as an error. -/
def imgSrc (props : FilejetImgProps) (resolve : String → String)
    (scale : ℚ) : Except String String :=
  match mutationFor props scale with
  | .error e => .error e
  | .ok mutation =>
    if externalPrefixes.any (fun p => jsStartsWith props.src p) then
      match base64UrlEncode (resolve props.src) with
      | some enc =>
          .ok ("https://" ++ props.filejetDomain ++ "/" ++ ("@ext_" ++ enc) ++ "/" ++ mutation)
      | none => .error "InvalidCharacterError"
    else
      .ok ("https://" ++ props.filejetDomain ++ "/" ++ props.src ++ "/" ++ mutation)

/-! ## react/img.tsx: load-state machine and layer rendering -/

/-- The `loadingState` React state: `'loading' | 'loaded' | 'error'`. -/
inductive LoadingState
  | loading
  | loaded
  | error
deriving DecidableEq, Repr

/-- The signals the `<img>` element delivers to the widget: `onLoad`
followed by awaited decode completion, and `onError`. -/
inductive ImgSignal
  | decodeComplete
  | loadFailure
deriving DecidableEq, Repr

/-- Mutable widget state: `loadingState` and the `loadingFailed` ref. -/
structure ImgState where
  loadingState : LoadingState
  loadingFailed : Bool
deriving DecidableEq, Repr

/-- Initial state of one mount: `useState('loading')`, `useRef(false)`. -/
def initialImgState : ImgState := ⟨.loading, false⟩

/-- The `<img>` element is in the DOM iff `loadingState !== 'error'`. -/
def imgMounted (s : ImgState) : Bool := s.loadingState ≠ .error

/-- One signal step: the handlers run only while the `<img>` element is
mounted; `onLoad` (after decode) sets `'loaded'`, `onError` sets
`loadingFailed.current = true` and `'error'`. -/
def imgStep (s : ImgState) (sig : ImgSignal) : ImgState :=
  if imgMounted s then
    match sig with
    | .decodeComplete => { s with loadingState := .loaded }
    | .loadFailure => { loadingState := .error, loadingFailed := true }
  else s

/-- The thumbhash placeholder layer renders iff `loadingState !== 'loaded'`
and a thumbhash is present. -/
def thumbhashLayerRendered (s : ImgState) (hasThumbhash : Bool) : Bool :=
  decide (s.loadingState ≠ .loaded) && hasThumbhash

/-- The generic placeholder node renders iff `loadingState !== 'loaded'`
and no thumbhash is present. -/
def placeholderNodeRendered (s : ImgState) (hasThumbhash : Bool) : Bool :=
  decide (s.loadingState ≠ .loaded) && !hasThumbhash

/-- The caller-supplied error node renders iff `loadingState === 'error'`. -/
def errorLayerRendered (s : ImgState) : Bool := s.loadingState = .error

/-- Dimension resolution from react/img.tsx: both explicit props win;
with exactly one explicit prop and a thumbhash, the missing dimension
comes from the approximate aspect ratio, rounded. -/
def resolveDimensions : Option ℚ → Option ℚ → Option ℚ → Option ℚ × Option ℚ
  | some w, some h, _ => (some w, some h)
  | some w, none, some ratio => (some w, some ((jsRound (w / ratio) : ℤ) : ℚ))
  | none, some h, some ratio => (some ((jsRound (h * ratio) : ℤ) : ℚ), some h)
  | w, h, _ => (w, h)

/-! ## react/img.tsx (fractional-dimension variant): resize-observer step -/

/-- The `wrapperSizes` React state. -/
structure WrapperSizes where
  width : Option ℚ
  height : Option ℚ
deriving DecidableEq, Repr

/-- One `ResizeObserver` callback entry: `width`/`height` are the
currently resolved dimensions captured by the effect, `wrapperSizes` the
captured state, `newWidth`/`newHeight` the measured content-box sizes.
Mirrors the three guarded `setWrapperSizes` calls. -/
def resizeObserverStep (isPctW isPctH : Bool) (width height : ℚ)
    (wrapperSizes : WrapperSizes) (newWidth newHeight : ℚ) : WrapperSizes :=
  if isPctW ∧ isPctH ∧ (newWidth > 3/2 * width ∨ newWidth < 3/4 * width) then
    ⟨some newWidth, some newHeight⟩
  else if isPctW ∧ ¬isPctH ∧ (newWidth > 3/2 * width ∨ newWidth < 3/4 * width) then
    ⟨some newWidth, wrapperSizes.height⟩
  else if ¬isPctW ∧ isPctH ∧ (newHeight > 3/2 * height ∨ newHeight < 3/4 * height) then
    ⟨wrapperSizes.width, some newHeight⟩
  else wrapperSizes

/-! ## react/thumbhash.tsx: decode scheduling -/

/-- `ImgPriority` from react/img.tsx. -/
inductive ImgPriority
  | high
  | low
  | auto
deriving DecidableEq, Repr

/-- Outcome of the ref callback of `ThumbhashImg` at the animation frame:
either nothing happens, or the thumbhash is decoded right away, or an
intersection observer is registered and decoding waits for intersection. -/
inductive ThumbhashTrigger
  | skipped
  | decodeNow
  | observe
deriving DecidableEq, Repr

/-- The ref-callback logic of `ThumbhashImg`: skip when a src is already
set or decoding was already requested; inside `requestAnimationFrame`,
skip when `shouldRender()` is false; for non-`low` priority decode
immediately when the element is in the expanded viewport; otherwise
register an `IntersectionObserver`. -/
def thumbhashRefCallback (priority : ImgPriority) (srcAlready decodingRequested
    shouldRender inViewport : Bool) : ThumbhashTrigger :=
  if srcAlready then .skipped
  else if decodingRequested then .skipped
  else if ¬shouldRender then .skipped
  else if priority ≠ .low ∧ inViewport then .decodeNow
  else .observe

/-! ## react/cache.tsx: LruCache -/

/-- Modelled from the spec: `LruCache` delegates to the `quick-lru` npm
dependency, whose source is not part of this repository; the BoundedCache
contract is therefore taken from the spec — capacity fixed at
construction, `set` beyond capacity evicts the least-recently-used entry,
recency updated by both `get` and `set`. Entries are kept most recent
first. -/
structure LruCache where
  maxSize : Nat
  entries : List (String × String)
deriving DecidableEq, Repr

/-- A fresh cache of the given capacity. -/
def LruCache.empty (maxSize : Nat) : LruCache := ⟨maxSize, []⟩

/-- Modelled from the spec: `set` stores the pair as most recent and
drops the least-recently-used entries beyond capacity. -/
def LruCache.set (c : LruCache) (k v : String) : LruCache :=
  { c with entries := ((k, v) :: c.entries.filter (fun e => e.1 ≠ k)).take c.maxSize }

/-- Modelled from the spec: `get` returns the stored value and refreshes
the entry's recency. -/
def LruCache.get (c : LruCache) (k : String) : Option String × LruCache :=
  match c.entries.find? (fun e => e.1 = k) with
  | none => (none, c)
  | some e => (some e.2, { c with entries := (k, e.2) :: c.entries.filter (fun x => x.1 ≠ k) })

/-- `has`: membership, without touching recency. -/
def LruCache.has (c : LruCache) (k : String) : Bool :=
  c.entries.any (fun e => e.1 = k)

/-- Insert each key of the list (as its own value), in order. -/
def insertAll (c : LruCache) (ks : List String) : LruCache :=
  ks.foldl (fun c k => c.set k k) c

/-! ## base64 round-trip lemmas -/

/-- The characters emitted by `base64UrlEncode` (before the final url-safe
reverse mapping of the decoder). -/
def encChars (bytes : List Nat) : List Char :=
  ((btoaCore bytes).map toUrlSafe).filter (fun c => c ≠ '=')

theorem b64_char_roundtrip : ∀ n, n < 64 → b64Index (fromUrlSafe (toUrlSafe (b64Char n))) = some n := by decide

theorem toUrlSafe_b64Char_ne : ∀ n, n < 64 → toUrlSafe (b64Char n) ≠ '=' := by decide

theorem fromUrlSafe_ne_eq {c : Char} (h : c ≠ '=') : fromUrlSafe c ≠ '=' := by
  unfold fromUrlSafe
  split_ifs <;> simp_all

theorem mem_encChars_ne (bytes : List Nat) :
    ∀ c ∈ (encChars bytes).map fromUrlSafe, ¬(c = '=') := by
  intro c hc
  simp only [List.mem_map] at hc
  obtain ⟨d, hd, rfl⟩ := hc
  have := List.of_mem_filter hd
  exact fromUrlSafe_ne_eq (by simpa using this)

theorem stripEq_eq_self {l : List Char} (h : ∀ c ∈ l, ¬(c = '=')) : stripEq l = l := by
  unfold stripEq
  rw [List.rdropWhile_eq_self_iff]
  intro hl
  have := h _ (List.getLast_mem hl)
  simpa using this

theorem atobChars_of_no_eq {l : List Char} (h : ∀ c ∈ l, ¬(c = '=')) :
    atobChars l = (mapIndex l).bind atobCore := by
  unfold atobChars
  rw [stripEq_eq_self h]
  have hany : (l.any fun c => decide (c = '=')) = false := by
    simp only [List.any_eq_false, decide_eq_true_eq]
    exact h
  simp [hany]

theorem atob_encChars : ∀ (bytes : List Nat), (∀ b ∈ bytes, b < 256) →
    atobChars ((encChars bytes).map fromUrlSafe) = some bytes
  | [], _ => by decide
  | [b1], h => by
      have hb1 : b1 < 256 := h b1 (by simp)
      have h1 : b1 / 4 < 64 := by omega
      have h2 : b1 % 4 * 16 < 64 := by omega
      rw [atobChars_of_no_eq (mem_encChars_ne _)]
      have e1 : encChars [b1] = [toUrlSafe (b64Char (b1 / 4)), toUrlSafe (b64Char (b1 % 4 * 16))] := by
        unfold encChars
        simp only [btoaCore, List.map_cons, List.map_nil]
        rw [List.filter_cons_of_pos (by simpa using toUrlSafe_b64Char_ne _ h1),
            List.filter_cons_of_pos (by simpa using toUrlSafe_b64Char_ne _ h2)]
        rfl
      rw [e1]
      simp [mapIndex, b64_char_roundtrip _ h1, b64_char_roundtrip _ h2, atobCore]
      omega
  | [b1, b2], h => by
      have hb1 : b1 < 256 := h _ (by simp)
      have hb2 : b2 < 256 := h _ (by simp)
      have h1 : b1 / 4 < 64 := by omega
      have h2 : b1 % 4 * 16 + b2 / 16 < 64 := by omega
      have h3 : b2 % 16 * 4 < 64 := by omega
      rw [atobChars_of_no_eq (mem_encChars_ne _)]
      have e1 : encChars [b1, b2] = [toUrlSafe (b64Char (b1 / 4)),
          toUrlSafe (b64Char (b1 % 4 * 16 + b2 / 16)), toUrlSafe (b64Char (b2 % 16 * 4))] := by
        unfold encChars
        simp only [btoaCore, List.map_cons, List.map_nil]
        rw [List.filter_cons_of_pos (by simpa using toUrlSafe_b64Char_ne _ h1),
            List.filter_cons_of_pos (by simpa using toUrlSafe_b64Char_ne _ h2),
            List.filter_cons_of_pos (by simpa using toUrlSafe_b64Char_ne _ h3)]
        rfl
      rw [e1]
      simp [mapIndex, b64_char_roundtrip _ h1, b64_char_roundtrip _ h2,
        b64_char_roundtrip _ h3, atobCore]
      omega
  | b1 :: b2 :: b3 :: rest, h => by
      have hb1 : b1 < 256 := h _ (by simp)
      have hb2 : b2 < 256 := h _ (by simp)
      have hb3 : b3 < 256 := h _ (by simp)
      have h1 : b1 / 4 < 64 := by omega
      have h2 : b1 % 4 * 16 + b2 / 16 < 64 := by omega
      have h3 : b2 % 16 * 4 + b3 / 64 < 64 := by omega
      have h4 : b3 % 64 < 64 := by omega
      have ih := atob_encChars rest (fun b hb => h b (by simp [hb]))
      have e1 : encChars (b1 :: b2 :: b3 :: rest)
          = toUrlSafe (b64Char (b1 / 4)) :: toUrlSafe (b64Char (b1 % 4 * 16 + b2 / 16))
            :: toUrlSafe (b64Char (b2 % 16 * 4 + b3 / 64)) :: toUrlSafe (b64Char (b3 % 64))
            :: encChars rest := by
        unfold encChars
        simp only [btoaCore, List.map_cons]
        rw [List.filter_cons_of_pos (by simpa using toUrlSafe_b64Char_ne _ h1),
            List.filter_cons_of_pos (by simpa using toUrlSafe_b64Char_ne _ h2),
            List.filter_cons_of_pos (by simpa using toUrlSafe_b64Char_ne _ h3),
            List.filter_cons_of_pos (by simpa using toUrlSafe_b64Char_ne _ h4)]
      rw [atobChars_of_no_eq (mem_encChars_ne _), e1]
      rw [atobChars_of_no_eq (mem_encChars_ne _)] at ih
      obtain ⟨ss, hss, hcore⟩ := Option.bind_eq_some.mp ih
      simp only [List.map_cons, mapIndex, b64_char_roundtrip _ h1, b64_char_roundtrip _ h2,
        b64_char_roundtrip _ h3, b64_char_roundtrip _ h4, hss]
      simp [atobCore, hcore]
      omega

theorem base64UrlEncode_decode (s : String) (h : ∀ c ∈ s.data, c.toNat < 256) :
    ∃ e, base64UrlEncode s = some e ∧ base64UrlDecode e = some s := by
  have hall : s.data.all (fun c => decide (c.toNat < 256)) = true := by
    simp only [List.all_eq_true, decide_eq_true_eq]
    exact h
  refine ⟨String.mk (encChars (s.data.map Char.toNat)), ?_, ?_⟩
  · simp [base64UrlEncode, btoa, hall, encChars]
  · have hbytes : ∀ b ∈ s.data.map Char.toNat, b < 256 := by
      intro b hb
      simp only [List.mem_map] at hb
      obtain ⟨c, hc, rfl⟩ := hb
      exact h c hc
    simp only [base64UrlDecode, atob]
    rw [atob_encChars (s.data.map Char.toNat) hbytes]
    have hid : List.map (Char.ofNat ∘ Char.toNat) s.data = s.data := by
      simp [Function.comp_def, Char.ofNat_toNat]
    simp [hid]

/-! ## jsTrim lemmas -/

theorem jsTrim_eq_self {s : String}
    (h1 : ∀ hl : 0 < s.data.length, ¬(s.data.get ⟨0, hl⟩).isWhitespace)
    (h2 : ∀ hl : s.data ≠ [], ¬(s.data.getLast hl).isWhitespace) :
    jsTrim s = s := by
  unfold jsTrim
  rw [List.dropWhile_eq_self_iff.mpr h1]
  rw [List.rdropWhile_eq_self_iff.mpr h2]

theorem jsTrim_auto : jsTrim "auto" = "auto" := rfl

theorem getLast_eq_of_getLastQ {α} {l : List α} {a : α} (hl : l ≠ [])
    (h : l.getLast? = some a) : l.getLast hl = a := by
  rw [List.getLast?_eq_getLast l hl] at h
  exact Option.some.inj h

/-- Trimming a string that starts with `resize_` and ends in `bg_` followed
by a whitespace-free-tail color is the identity. -/
theorem jsTrim_cover_clause (mid : String) (bg : String)
    (hbg : ¬(bg.data.getLastD 'x').isWhitespace) :
    jsTrim ("resize_" ++ mid ++ "bg_" ++ bg) = "resize_" ++ mid ++ "bg_" ++ bg := by
  apply jsTrim_eq_self
  · intro hl
    have hdata : ("resize_" ++ mid ++ "bg_" ++ bg).data
        = 'r' :: ("esize_".data ++ mid.data ++ "bg_".data ++ bg.data) := by
      simp [String.data_append]
    simp [hdata]
  · intro hl
    have hdata : ("resize_" ++ mid ++ "bg_" ++ bg).data
        = ("resize_".data ++ mid.data ++ ['b', 'g']) ++ ('_' :: bg.data) := by
      simp [String.data_append]
    have hq : ("resize_" ++ mid ++ "bg_" ++ bg).data.getLast? = ('_' :: bg.data).getLast? := by
      rw [hdata, List.getLast?_append_of_ne_nil _ (by simp)]
    cases hb : bg.data with
    | nil =>
        have hq2 : ('_' :: bg.data).getLast? = some '_' := by simp [hb]
        rw [getLast_eq_of_getLastQ hl (hq.trans hq2)]
        decide
    | cons c cs =>
        have hne : bg.data ≠ [] := by simp [hb]
        have hq2 : ('_' :: bg.data).getLast? = some (bg.data.getLast hne) := by
          conv => lhs; rw [hb]
          rw [List.getLast?_cons_cons]
          rw [← hb]
          exact (List.getLast?_eq_getLast _ hne)
        rw [getLast_eq_of_getLastQ hl (hq.trans hq2)]
        have hD : bg.data.getLastD 'x' = bg.data.getLast hne := by
          rw [List.getLastD_eq_getLast?, List.getLast?_eq_getLast _ hne]
          rfl
        rw [← hD]
        exact hbg

/-- Trim is the identity on the exact clause `resize` builds for
`cover` with both dimensions. -/
theorem jsTrim_resize_cover (t1 t2 bg : String)
    (hbg : ¬(bg.data.getLastD 'x').isWhitespace) :
    jsTrim ("resize_" ++ t1 ++ "x" ++ t2 ++ "min" ++ "," ++
        ("fit_" ++ t1 ++ "x" ++ t2 ++ "," ++ ("bg_" ++ bg)))
      = "resize_" ++ t1 ++ "x" ++ t2 ++ "min" ++ "," ++
        ("fit_" ++ t1 ++ "x" ++ t2 ++ "," ++ ("bg_" ++ bg)) := by
  have harg : "resize_" ++ t1 ++ "x" ++ t2 ++ "min" ++ "," ++
        ("fit_" ++ t1 ++ "x" ++ t2 ++ "," ++ ("bg_" ++ bg))
      = "resize_" ++ (t1 ++ "x" ++ t2 ++ "min" ++ "," ++ "fit_" ++ t1 ++ "x" ++ t2 ++ ",")
        ++ "bg_" ++ bg := by
    simp only [String.append_assoc]
  rw [harg]
  exact jsTrim_cover_clause _ bg hbg


/-! ## LruCache lemmas -/

theorem insertAll_append_single (c : LruCache) (ks : List String) (k : String) :
    insertAll c (ks ++ [k]) = (insertAll c ks).set k k := by
  simp [insertAll, List.foldl_append]

theorem set_maxSize (c : LruCache) (k v : String) : (c.set k v).maxSize = c.maxSize := rfl

theorem insertAll_maxSize (c : LruCache) (ks : List String) :
    (insertAll c ks).maxSize = c.maxSize := by
  induction ks generalizing c with
  | nil => rfl
  | cons k ks ih =>
      show (insertAll (c.set k k) ks).maxSize = c.maxSize
      rw [ih, set_maxSize]

theorem insertAll_entries (N : Nat) (ks : List String) (h : ks.Nodup) :
    (insertAll (LruCache.empty N) ks).entries
      = (ks.reverse.map (fun k => (k, k))).take N := by
  induction ks using List.reverseRecOn with
  | nil => simp [insertAll, LruCache.empty]
  | append_singleton ks k ih =>
      have hnd : ks.Nodup := h.of_append_left
      have hk : k ∉ ks := by
        intro hmem
        have := List.disjoint_of_nodup_append h
        exact this hmem (by simp)
      have hms : (insertAll (LruCache.empty N) ks).maxSize = N := insertAll_maxSize _ _
      simp only [insertAll_append_single, LruCache.set, ih hnd, hms]
      have hfilter : ((ks.reverse.map (fun k => (k, k))).take N).filter
          (fun e => decide (e.1 ≠ k)) = (ks.reverse.map (fun k => (k, k))).take N := by
        apply List.filter_eq_self.mpr
        intro x hx
        have hx2 : x ∈ ks.reverse.map (fun k => (k, k)) := List.mem_of_mem_take hx
        simp only [List.mem_map, List.mem_reverse] at hx2
        obtain ⟨a, ha, rfl⟩ := hx2
        simp only [ne_eq, decide_eq_true_eq]
        intro hEq
        exact hk (hEq ▸ ha)
      rw [hfilter, List.reverse_append, List.reverse_singleton]
      simp only [List.singleton_append, List.map_cons]
      cases N with
      | zero => simp
      | succ m => simp [List.take_succ_cons, List.take_take]

/-! ## resize never raises -/

theorem resize_ok (w h : Option ℚ) (s : ℚ) (fit : ImgObjectFit) (bg : String) :
    ∃ r, resize w h s fit bg = Except.ok r := by
  unfold resize
  by_cases hwh : w = none ∧ h = none
  · rw [if_pos hwh]
    exact ⟨none, rfl⟩
  · rw [if_neg hwh]
    cases fit <;> cases w <;> cases h <;> simp_all

theorem mutationFor_ok (props : FilejetImgProps) (scale : ℚ) :
    ∃ m, mutationFor props scale = Except.ok m := by
  unfold mutationFor
  obtain ⟨r, hr⟩ := resize_ok props.width props.height scale props.fit props.backgroundColor
  rw [hr]
  exact ⟨_, rfl⟩

/-! ## Claims -/

/-- Claim C1: for `fit = cover` with both dimensions set and any DPI scale
factor, the mutation string is exactly
`resize_{round(W*s)}x{round(H*s)}min,fit_{round(W*s)}x{round(H*s)},bg_{backgroundColor}`
followed by the remaining clauses (the trimmed extra mutation, if any)
ending in `auto`. The background color is assumed to carry no trailing
whitespace, otherwise the trim step would alter the clause. -/
theorem mutationFor_cover_both_dims (src : String) (dpi : List ℚ) (domain : String)
    (w h sc : ℚ) (bg : String) (extra : Option String)
    (hbg : ¬(bg.data.getLastD 'x').isWhitespace) :
    mutationFor ⟨src, some w, some h, dpi, .cover, bg, extra, domain⟩ sc
      = .ok ("resize_" ++ toString (jsRound (w * sc)) ++ "x" ++ toString (jsRound (h * sc))
          ++ "min" ++ "," ++ "fit_" ++ toString (jsRound (w * sc)) ++ "x"
          ++ toString (jsRound (h * sc)) ++ "," ++ "bg_" ++ bg ++ "," ++
          (match extra with
           | none => "auto"
           | some e => jsTrim e ++ "," ++ "auto")) := by
  cases extra with
  | none =>
      simp only [mutationFor, resize, combineMutations, joinComma]
      rw [if_neg (by simp)]
      simp only [List.filterMap, id, List.map, joinComma, List.length_cons,
        List.length_nil]
      rw [if_neg (by simp)]
      rw [jsTrim_resize_cover _ _ bg hbg, jsTrim_auto]
      simp only [Option.getD_some, String.append_assoc]
  | some e =>
      simp only [mutationFor, resize, combineMutations, joinComma]
      rw [if_neg (by simp)]
      simp only [List.filterMap, id, List.map, joinComma, List.length_cons,
        List.length_nil]
      rw [if_neg (by simp)]
      rw [jsTrim_resize_cover _ _ bg hbg, jsTrim_auto]
      simp only [Option.getD_some, String.append_assoc]

/-- Witness for C1: width 128, height 128, cover, scale 1, transparent
background yields `resize_128x128min,fit_128x128,bg_transparent,auto`. -/
theorem mutationFor_cover_both_dims_witness :
    mutationFor ⟨"file123", some 128, some 128, [1], .cover, "transparent", none,
        "cdn.filejet.io"⟩ 1
      = .ok "resize_128x128min,fit_128x128,bg_transparent,auto" := by
  rw [mutationFor_cover_both_dims "file123" [1] "cdn.filejet.io" 128 128 1 "transparent"
    none (by decide)]
  have h128 : jsRound (128 * 1) = 128 := by norm_num [jsRound]
  rw [h128]
  rfl

/-- Claim C2: a source matching one of the external prefixes is resolved
to an absolute URL and emitted as `@ext_` followed by its url-safe base64
encoding, whose base64url decoding restores exactly the absolute URL;
any other source is used verbatim as the path segment. The resolved URL
is assumed latin-1 (`btoa` throws otherwise). -/
theorem imgSrc_external_base64url (props : FilejetImgProps) (resolve : String → String)
    (scale : ℚ) (hlatin : ∀ c ∈ (resolve props.src).data, c.toNat < 256) :
    (externalPrefixes.any (fun p => jsStartsWith props.src p) = true →
      ∃ enc mu, imgSrc props resolve scale
          = .ok ("https://" ++ props.filejetDomain ++ "/" ++ ("@ext_" ++ enc) ++ "/" ++ mu)
        ∧ base64UrlEncode (resolve props.src) = some enc
        ∧ base64UrlDecode enc = some (resolve props.src))
    ∧ (externalPrefixes.any (fun p => jsStartsWith props.src p) = false →
      ∃ mu, imgSrc props resolve scale
          = .ok ("https://" ++ props.filejetDomain ++ "/" ++ props.src ++ "/" ++ mu)) := by
  obtain ⟨m, hm⟩ := mutationFor_ok props scale
  obtain ⟨e, he, hd⟩ := base64UrlEncode_decode (resolve props.src) hlatin
  constructor
  · intro hpre
    refine ⟨e, m, ?_, he, hd⟩
    unfold imgSrc
    rw [hm, hpre, he]
    simp
  · intro hpre
    refine ⟨m, ?_⟩
    unfold imgSrc
    rw [hm, hpre]
    simp

/-- Witness for C2: `https://myapp.com/image.jpg` with domain
`cdn.myapp.com` yields an `@ext_` segment whose decoding restores the
resolved URL. -/
theorem imgSrc_external_base64url_witness :
    ∃ enc mu,
      imgSrc ⟨"https://myapp.com/image.jpg", none, none, [1], .cover, "transparent", none,
          "cdn.myapp.com"⟩ (fun s => s) 1
        = .ok ("https://" ++ "cdn.myapp.com" ++ "/" ++ ("@ext_" ++ enc) ++ "/" ++ mu)
      ∧ base64UrlEncode "https://myapp.com/image.jpg" = some enc
      ∧ base64UrlDecode enc = some "https://myapp.com/image.jpg" :=
  (imgSrc_external_base64url
    ⟨"https://myapp.com/image.jpg", none, none, [1], .cover, "transparent", none,
      "cdn.myapp.com"⟩ (fun s => s) 1 (by decide)).1 (by decide)

/-- Claim C3 counterexample: with `fit = cover` and neither width nor
height set, `resize` does not fail — it returns successfully with no
resize clause (the `InvalidDimensions` throw is unreachable). -/
theorem resize_neither_dims_ok :
    resize none none 1 .cover "transparent" = .ok none := by
  simp [resize]

/-- Claim C3 (amended): when neither dimension is set the resize mutation
is simply omitted, for either fit mode, and `resize` never raises any
error at all. -/
theorem resize_never_errors (w h : Option ℚ) (s : ℚ) (fit : ImgObjectFit) (bg : String) :
    resize none none s fit bg = .ok none ∧ ∃ r, resize w h s fit bg = Except.ok r :=
  ⟨by simp [resize], resize_ok w h s fit bg⟩

/-- Claim C4 counterexample: after a successful decode the widget is in
`loaded`, yet a subsequent failure signal moves it to `error` — a
transition out of Loaded. -/
theorem imgStep_loaded_to_error :
    (imgStep initialImgState .decodeComplete).loadingState = .loaded
    ∧ (imgStep (imgStep initialImgState .decodeComplete) .loadFailure).loadingState
        = .error := by decide

/-- Claim C4 (amended): the state starts at `loading`; a decode-complete
signal moves any non-error state to `loaded` and a failure signal moves
any non-error state to `error`; no signal leaves `error` (the image
element is unmounted there), but `loaded` is not terminal: a failure
signal moves it to `error`. -/
theorem imgStep_transitions (s : ImgState) (sig : ImgSignal) :
    initialImgState.loadingState = .loading
    ∧ (s.loadingState = .error → imgStep s sig = s)
    ∧ (s.loadingState ≠ .error → (imgStep s .decodeComplete).loadingState = .loaded)
    ∧ (s.loadingState ≠ .error → (imgStep s .loadFailure).loadingState = .error) := by
  obtain ⟨ls, lf⟩ := s
  cases ls <;> cases sig <;> simp [imgStep, imgMounted, initialImgState]

/-- Witness for C4: the theorem applied in the error state and in the
initial state. -/
theorem imgStep_transitions_witness :
    imgStep ⟨.error, true⟩ .decodeComplete = ⟨.error, true⟩
    ∧ (imgStep initialImgState .decodeComplete).loadingState = .loaded :=
  ⟨(imgStep_transitions ⟨.error, true⟩ .decodeComplete).2.1 rfl,
   (imgStep_transitions initialImgState .decodeComplete).2.2.1 (by decide)⟩

/-- Claim C5 counterexample: with `priority = high` and the element not in
the viewport, the ref callback registers an intersection observer instead
of decoding at the animation frame — the trigger is not unconditional. -/
theorem thumbhash_high_waits_for_intersection :
    thumbhashRefCallback .high false false true false = .observe := by decide

/-- Claim C5 (amended): `priority = high` behaves exactly like `auto`:
at the animation frame the decode fires immediately only when the element
is within the expanded viewport; otherwise decoding waits for the first
reported intersection. -/
theorem thumbhash_high_like_auto (srcAlready decodingRequested shouldRender inViewport : Bool) :
    thumbhashRefCallback .high srcAlready decodingRequested shouldRender inViewport
      = thumbhashRefCallback .auto srcAlready decodingRequested shouldRender inViewport
    ∧ (srcAlready = false → decodingRequested = false → shouldRender = true →
        thumbhashRefCallback .high srcAlready decodingRequested shouldRender inViewport
          = if inViewport then .decodeNow else .observe) := by
  cases srcAlready <;> cases decodingRequested <;> cases shouldRender <;> cases inViewport <;>
    simp [thumbhashRefCallback]

/-- Witness for C5: in the viewport the high-priority decode fires at the
frame. -/
theorem thumbhash_high_like_auto_witness :
    thumbhashRefCallback .high false false true true = .decodeNow :=
  (thumbhash_high_like_auto false false true true).2 rfl rfl rfl

/-- Claim C8 counterexample: after a failure signal the widget is in the
`error` state yet the thumbhash placeholder layer is still rendered (its
guard is `loadingState` different from `loaded`), contradicting that the
placeholder is suppressed in the Error state. -/
theorem error_state_placeholder_still_rendered :
    (imgStep initialImgState .loadFailure).loadingState = .error
    ∧ thumbhashLayerRendered (imgStep initialImgState .loadFailure) true = true := by decide

/-- Claim C8 (amended): a failure signal in a non-error state yields the
`error` state, renders the caller-supplied error layer, unmounts the
primary image element, and keeps rendering the placeholder layer
(thumbhash when present, the generic node otherwise) underneath it. -/
theorem loadFailure_error_rendering (s : ImgState) (hasThumbhash : Bool)
    (hs : s.loadingState ≠ .error) :
    (imgStep s .loadFailure).loadingState = .error
    ∧ errorLayerRendered (imgStep s .loadFailure) = true
    ∧ imgMounted (imgStep s .loadFailure) = false
    ∧ thumbhashLayerRendered (imgStep s .loadFailure) hasThumbhash = hasThumbhash
    ∧ placeholderNodeRendered (imgStep s .loadFailure) hasThumbhash = !hasThumbhash := by
  obtain ⟨ls, lf⟩ := s
  cases ls <;> cases hasThumbhash <;>
    simp_all [imgStep, imgMounted, errorLayerRendered, thumbhashLayerRendered,
      placeholderNodeRendered]

/-- Witness for C8: the theorem applied at the initial state with a
thumbhash present. -/
theorem loadFailure_error_rendering_witness :
    (imgStep initialImgState .loadFailure).loadingState = .error
    ∧ errorLayerRendered (imgStep initialImgState .loadFailure) = true
    ∧ imgMounted (imgStep initialImgState .loadFailure) = false
    ∧ thumbhashLayerRendered (imgStep initialImgState .loadFailure) true = true
    ∧ placeholderNodeRendered (imgStep initialImgState .loadFailure) true = !true :=
  loadFailure_error_rendering initialImgState true (by decide)

/-- Claim C6 counterexample: with both dimensions fractional, a height
measurement far outside its band (1000 vs previous 100) is not committed
because the width measurement (100, unchanged) is inside the width band —
the per-dimension band of the claim does not hold. -/
theorem resizeObserver_ignores_height_band :
    ((1000 : ℚ) > 3/2 * 100)
    ∧ resizeObserverStep true true 100 100 ⟨some 100, some 100⟩ 100 1000
        = ⟨some 100, some 100⟩ := by
  constructor
  · norm_num
  · simp only [resizeObserverStep]
    norm_num

/-- Claim C6 (amended): when exactly one dimension is fractional, a new
measurement of that dimension is committed iff it lies outside the band
[0.75x, 1.5x] of the previously committed value; when both are
fractional, both measurements are committed iff the width measurement is
outside the width band — the height band is never consulted. -/
theorem resizeObserverStep_characterization (w h nW nH : ℚ) (ws : WrapperSizes) :
    (resizeObserverStep true false w h ws nW nH
        = if nW > 3/2 * w ∨ nW < 3/4 * w then ⟨some nW, ws.height⟩ else ws)
    ∧ (resizeObserverStep false true w h ws nW nH
        = if nH > 3/2 * h ∨ nH < 3/4 * h then ⟨ws.width, some nH⟩ else ws)
    ∧ (resizeObserverStep true true w h ws nW nH
        = if nW > 3/2 * w ∨ nW < 3/4 * w then ⟨some nW, some nH⟩ else ws)
    ∧ resizeObserverStep false false w h ws nW nH = ws := by
  refine ⟨?_, ?_, ?_, ?_⟩
  · by_cases hc : nW > 3/2 * w ∨ nW < 3/4 * w
    · simp only [resizeObserverStep]
      rw [if_neg (by simp), if_pos ⟨trivial, by simp, hc⟩, if_pos hc]
    · simp only [resizeObserverStep]
      rw [if_neg (by simp), if_neg (fun hN => hc hN.2.2), if_neg (by simp), if_neg hc]
  · by_cases hc : nH > 3/2 * h ∨ nH < 3/4 * h
    · simp only [resizeObserverStep]
      rw [if_neg (by simp), if_neg (by simp), if_pos ⟨by simp, trivial, hc⟩, if_pos hc]
    · simp only [resizeObserverStep]
      rw [if_neg (by simp), if_neg (by simp), if_neg (fun hN => hc hN.2.2), if_neg hc]
  · by_cases hc : nW > 3/2 * w ∨ nW < 3/4 * w
    · simp only [resizeObserverStep]
      rw [if_pos ⟨trivial, trivial, hc⟩, if_pos hc]
    · simp only [resizeObserverStep]
      rw [if_neg (fun hN => hc hN.2.2), if_neg (by simp), if_neg (by simp), if_neg hc]
  · simp only [resizeObserverStep]
    rw [if_neg (by simp), if_neg (by simp), if_neg (by simp)]

/-- Claim C7: with exactly one explicit dimension and a thumbhash with a
positive approximate aspect ratio, the missing dimension is derived from
the ratio and rounded (height = round(width / ratio), width =
round(height * ratio)); with both dimensions explicit they are used
verbatim regardless of the ratio. -/
theorem resolveDimensions_single_explicit (w h ratio : ℚ) (hr : 0 < ratio) :
    resolveDimensions (some w) none (some ratio)
        = (some w, some ((jsRound (w / ratio) : ℤ) : ℚ))
    ∧ resolveDimensions none (some h) (some ratio)
        = (some ((jsRound (h * ratio) : ℤ) : ℚ), some h)
    ∧ (∀ r : Option ℚ, resolveDimensions (some w) (some h) r = (some w, some h)) :=
  ⟨rfl, rfl, fun _ => rfl⟩

/-- Witness for C7: width 200 with aspect ratio 2 yields height 100; both
dimensions explicit stay verbatim. -/
theorem resolveDimensions_single_explicit_witness :
    resolveDimensions (some 200) none (some 2) = (some 200, some 100)
    ∧ resolveDimensions (some 200) (some 50) (some 2) = (some 200, some 50) := by
  have hth := resolveDimensions_single_explicit 200 50 2 (by norm_num)
  refine ⟨?_, hth.2.2 (some 2)⟩
  rw [hth.1]
  norm_num [jsRound]

/-- Claim C9 counterexample: an extra mutation that trims to the empty
string is kept, producing a doubled comma — empty parts are not dropped. -/
theorem combineMutations_keeps_empty_clause :
    combineMutations [some "resize_1x1min", some " ", some "auto"]
      = some "resize_1x1min,,auto" := rfl

/-- Claim C9 (amended): the clauses are combined in the fixed order
[resize clause, trimmed extra mutation, `auto`], joined with `,`; absent
(nil) parts are dropped, but empty strings are kept, so an extra mutation
trimming to the empty string yields an empty clause. -/
theorem combineMutations_order (rm extra : Option String) :
    combineMutations [rm, extra, some "auto"]
      = some ((match rm with | none => "" | some r => jsTrim r ++ ",")
          ++ ((match extra with | none => "" | some e => jsTrim e ++ ",") ++ "auto")) := by
  cases rm <;> cases extra <;>
    simp [combineMutations, joinComma, jsTrim_auto, String.append_assoc,
      String.empty_append, String.append_empty]

/-- Claim C10 (spec-modelled, since the `quick-lru` dependency backing
`LruCache` is not part of this repository): inserting N+1 distinct keys
into a capacity-N cache evicts exactly the least-recently-used key, and a
`get` refreshes recency, changing which key a subsequent
capacity-exceeding `set` evicts. -/
theorem lru_eviction_and_refresh (N : Nat) (k0 : String) (kt : List String)
    (hnd : (k0 :: kt).Nodup) (hlen : kt.length = N) :
    LruCache.has (insertAll (LruCache.empty N) (k0 :: kt)) k0 = false
    ∧ (∀ k ∈ kt, LruCache.has (insertAll (LruCache.empty N) (k0 :: kt)) k = true)
    ∧ (((insertAll (LruCache.empty 2) ["a", "b"]).get "a").2.set "c" "c").has "a" = true
    ∧ (((insertAll (LruCache.empty 2) ["a", "b"]).get "a").2.set "c" "c").has "b" = false
    ∧ ((insertAll (LruCache.empty 2) ["a", "b"]).set "c" "c").has "a" = false
    ∧ ((insertAll (LruCache.empty 2) ["a", "b"]).set "c" "c").has "b" = true := by
  have hten : (insertAll (LruCache.empty N) (k0 :: kt)).entries
      = kt.reverse.map (fun k => (k, k)) := by
    rw [insertAll_entries N (k0 :: kt) hnd, List.reverse_cons, List.map_append]
    rw [List.take_left']
    simp [hlen]
  have hk0 : k0 ∉ kt := (List.nodup_cons.mp hnd).1
  refine ⟨?_, ?_, by decide, by decide, by decide, by decide⟩
  · rw [LruCache.has, hten]
    simp only [List.any_eq_false, decide_eq_true_eq]
    intro e he
    simp only [List.mem_map, List.mem_reverse] at he
    obtain ⟨a, ha, rfl⟩ := he
    intro hEq
    exact hk0 (hEq ▸ ha)
  · intro k hk
    rw [LruCache.has, hten]
    simp only [List.any_eq_true, decide_eq_true_eq]
    exact ⟨(k, k), by simp [List.mem_map, hk], rfl⟩

/-- Witness for C10: capacity 1, keys `x` then `y`: `x` is evicted and
`y` remains. -/
theorem lru_eviction_and_refresh_witness :
    LruCache.has (insertAll (LruCache.empty 1) ["x", "y"]) "x" = false
    ∧ LruCache.has (insertAll (LruCache.empty 1) ["x", "y"]) "y" = true := by
  have hth := lru_eviction_and_refresh 1 "x" ["y"] (by decide) rfl
  exact ⟨hth.1, hth.2.1 "y" (by decide)⟩
